import Mathlib

/-!
Verification of the harness-generation and backend-selection logic of the
rust-timeit tool (src/main.rs, src/timeit.rs), via a shallow embedding.
Strings are modelled as `List Char`; Rust `str::replace` is modelled by a
left-to-right, non-overlapping scanner whose replacement text is emitted
without being rescanned, exactly as `str::replace` behaves for the nonempty
marker patterns used by the tool.
-/

set_option autoImplicit false
set_option maxRecDepth 8000

/-- `begins ps l` holds when `ps` is an initial segment of `l`
(Boolean version of the check `str::replace` performs at each scan position). -/
def begins : List Char → List Char → Bool
  | [], _ => true
  | _ :: _, [] => false
  | a :: as, b :: bs => a = b && begins as bs

/-- One simultaneous scan computing both the replaced text (first component)
and the number of non-overlapping matches (second component).  The `Nat`
argument is the number of pattern characters still to be skipped after a
match; the pattern is `p :: ps` (never empty at any call site in the tool). -/
def scanGo (p : Char) (ps rep : List Char) : Nat → List Char → List Char × Nat
  | _, [] => ([], 0)
  | k + 1, _ :: rest => scanGo p ps rep k rest
  | 0, c :: rest =>
    if c = p ∧ begins ps rest = true then
      let r := scanGo p ps rep ps.length rest
      (rep ++ r.1, r.2 + 1)
    else
      let r := scanGo p ps rep 0 rest
      (c :: r.1, r.2)

/-- Model of Rust `String::replace self pat rep` (all the patterns the tool
passes are nonempty marker literals; for an empty pattern we return the
input unchanged, a case the source never exercises). -/
def rustReplace (pat rep s : List Char) : List Char :=
  match pat with
  | [] => s
  | p :: ps => (scanGo p ps rep 0 s).1

/-- Number of non-overlapping occurrences of `pat` in `s`, counted by the
same left-to-right scan `str::replace` uses. -/
def countOcc (pat s : List Char) : Nat :=
  match pat with
  | [] => 0
  | p :: ps => (scanGo p ps [] 0 s).2

/-- Model of Rust `Vec::join(sep)`. -/
def joinSep (sep : List Char) : List (List Char) → List Char
  | [] => []
  | [x] => x
  | x :: y :: xs => x ++ sep ++ joinSep sep (y :: xs)

/-- Last character of a character list, if any. -/
def lastCh : List Char → Option Char
  | [] => none
  | [c] => some c
  | _ :: c :: rest => lastCh (c :: rest)

theorem lastCh_cons_cons (a b : Char) (l : List Char) :
    lastCh (a :: b :: l) = lastCh (b :: l) := rfl

theorem lastCh_mem : ∀ (l : List Char) (x : Char), lastCh l = some x → x ∈ l
  | [c], x, h => by
    simp [lastCh] at h
    simp [h]
  | a :: b :: l, x, h => by
    rw [lastCh_cons_cons] at h
    exact List.mem_cons_of_mem a (lastCh_mem (b :: l) x h)

theorem begins_length : ∀ (ps l : List Char), begins ps l = true → ps.length ≤ l.length
  | [], _, _ => by simp
  | _ :: _, [], h => by simp [begins] at h
  | a :: as, b :: bs, h => by
    simp only [begins, Bool.and_eq_true, decide_eq_true_eq] at h
    have := begins_length as bs h.2
    simpa using Nat.succ_le_succ this

theorem begins_nil (ps : List Char) (h : begins ps [] = true) : ps = [] := by
  cases ps with
  | nil => rfl
  | cons a as => simp [begins] at h

theorem begins_append (ps a b : List Char) (h : begins ps a = true) :
    begins ps (a ++ b) = true := by
  induction ps generalizing a with
  | nil => simp [begins]
  | cons p ps ih =>
    cases a with
    | nil => simp [begins] at h
    | cons x xs =>
      simp only [begins, Bool.and_eq_true, decide_eq_true_eq] at h
      simp only [List.cons_append, begins, Bool.and_eq_true, decide_eq_true_eq]
      exact ⟨h.1, ih xs h.2⟩

theorem begins_of_begins_append (ps a b : List Char) (h : begins ps (a ++ b) = true)
    (hlen : ps.length ≤ a.length) : begins ps a = true := by
  induction ps generalizing a with
  | nil => simp [begins]
  | cons p ps ih =>
    cases a with
    | nil => simp at hlen
    | cons x xs =>
      simp only [List.cons_append, begins, Bool.and_eq_true, decide_eq_true_eq] at h
      simp only [begins, Bool.and_eq_true, decide_eq_true_eq]
      exact ⟨h.1, ih xs h.2 (by simpa using Nat.le_of_succ_le_succ hlen)⟩

theorem begins_mem_of_short (ps a b : List Char) (h : begins ps (a ++ b) = true)
    (hlen : a.length < ps.length) : ∀ x, x ∈ a → x ∈ ps := by
  induction ps generalizing a with
  | nil => simp at hlen
  | cons p ps ih =>
    cases a with
    | nil => simp
    | cons y ys =>
      simp only [List.cons_append, begins, Bool.and_eq_true, decide_eq_true_eq] at h
      intro x hx
      rcases List.mem_cons.mp hx with hxy | hxys
      · subst hxy
        have : x = p := h.1.symm
        simp [this]
      · exact List.mem_cons_of_mem p (ih ys h.2 (by simpa using Nat.lt_of_succ_lt_succ hlen) x hxys)

theorem begins_head_mem_of_short (ps a : List Char) (x : Char) (b : List Char)
    (h : begins ps (a ++ x :: b) = true) (hlen : a.length < ps.length) : x ∈ ps := by
  induction ps generalizing a with
  | nil => simp at hlen
  | cons p ps ih =>
    cases a with
    | nil =>
      simp only [List.nil_append, begins, Bool.and_eq_true, decide_eq_true_eq] at h
      have : x = p := h.1.symm
      simp [this]
    | cons y ys =>
      simp only [List.cons_append, begins, Bool.and_eq_true, decide_eq_true_eq] at h
      exact List.mem_cons_of_mem p (ih ys h.2 (by simpa using Nat.lt_of_succ_lt_succ hlen))

theorem lastCh_some (c : Char) : ∀ (l : List Char), ∃ x, lastCh (c :: l) = some x := by
  intro l
  induction l generalizing c with
  | nil => exact ⟨c, rfl⟩
  | cons d l ih =>
    rw [lastCh_cons_cons]
    exact ih d

theorem scanGo_snd_irrel (p : Char) (ps rep₁ rep₂ : List Char) :
    ∀ (s : List Char) (k : Nat), (scanGo p ps rep₁ k s).2 = (scanGo p ps rep₂ k s).2 := by
  intro s
  induction s with
  | nil => intro k; cases k <;> rfl
  | cons c rest ih =>
    intro k
    cases k with
    | succ j => simpa [scanGo] using ih j
    | zero =>
      by_cases hm : (c = p ∧ begins ps rest = true)
      · simp [scanGo, hm, ih ps.length]
      · simp [scanGo, hm, ih 0]

theorem scanGo_count_zero (p : Char) (ps rep : List Char) :
    ∀ (s : List Char), (scanGo p ps rep 0 s).2 = 0 → (scanGo p ps rep 0 s).1 = s := by
  intro s
  induction s with
  | nil => intro _; rfl
  | cons c rest ih =>
    intro h
    by_cases hm : (c = p ∧ begins ps rest = true)
    · simp [scanGo, hm] at h
    · simp [scanGo, hm] at h ⊢
      exact ih h

theorem scanGo_nil (p : Char) (ps rep : List Char) (k : Nat) :
    scanGo p ps rep k [] = ([], 0) := by
  cases k <;> rfl

theorem scanGo_succ (p : Char) (ps rep : List Char) (k : Nat) (c : Char) (rest : List Char) :
    scanGo p ps rep (k + 1) (c :: rest) = scanGo p ps rep k rest := rfl

theorem scanGo_match (p : Char) (ps rep : List Char) (c : Char) (rest : List Char)
    (h : c = p ∧ begins ps rest = true) :
    scanGo p ps rep 0 (c :: rest) =
      (rep ++ (scanGo p ps rep ps.length rest).1, (scanGo p ps rep ps.length rest).2 + 1) := by
  simp only [scanGo]
  rw [if_pos h]

theorem scanGo_nomatch (p : Char) (ps rep : List Char) (c : Char) (rest : List Char)
    (h : ¬(c = p ∧ begins ps rest = true)) :
    scanGo p ps rep 0 (c :: rest) =
      (c :: (scanGo p ps rep 0 rest).1, (scanGo p ps rep 0 rest).2) := by
  simp only [scanGo]
  rw [if_neg h]

/-- A match found by the scanner never crosses a split point whose left side
ends in a character that is not in the pattern, so the scan distributes over
such appends. -/
theorem scanGo_append_last (p : Char) (ps rep : List Char) :
    ∀ (n : Nat) (u v : List Char), u.length ≤ n → ∀ (k : Nat), k ≤ u.length →
    (∀ x, lastCh u = some x → ¬(x = p ∨ x ∈ ps)) →
    scanGo p ps rep k (u ++ v) =
      ((scanGo p ps rep k u).1 ++ (scanGo p ps rep 0 v).1,
       (scanGo p ps rep k u).2 + (scanGo p ps rep 0 v).2) := by
  intro n
  induction n with
  | zero =>
    intro u v hu k hk _
    have hu0 : u = [] := List.length_eq_zero.mp (Nat.le_antisymm hu (Nat.zero_le _))
    subst hu0
    have hk0 : k = 0 := Nat.le_antisymm hk (Nat.zero_le _)
    subst hk0
    simp [scanGo_nil]
  | succ n ih =>
    intro u v hu k hk hlast
    cases u with
    | nil =>
      have hk0 : k = 0 := Nat.le_antisymm hk (Nat.zero_le _)
      subst hk0
      simp [scanGo_nil]
    | cons c u' =>
      have hlast' : ∀ x, lastCh u' = some x → ¬(x = p ∨ x ∈ ps) := by
        intro x hx
        apply hlast
        cases u' with
        | nil => simp [lastCh] at hx
        | cons d u'' => rw [lastCh_cons_cons]; exact hx
      cases k with
      | succ j =>
        have hj : j ≤ u'.length := Nat.le_of_succ_le_succ hk
        have hu' : u'.length ≤ n := Nat.le_of_succ_le_succ hu
        rw [List.cons_append, scanGo_succ, scanGo_succ]
        exact ih u' v hu' j hj hlast'
      | zero =>
        rw [List.cons_append]
        by_cases hm : (c = p ∧ begins ps (u' ++ v) = true)
        · by_cases hlen : ps.length ≤ u'.length
          · have hbu' : begins ps u' = true := begins_of_begins_append ps u' v hm.2 hlen
            have hm' : c = p ∧ begins ps u' = true := ⟨hm.1, hbu'⟩
            have hrec := ih u' v (Nat.le_of_succ_le_succ hu) ps.length hlen hlast'
            rw [scanGo_match p ps rep c (u' ++ v) hm, scanGo_match p ps rep c u' hm', hrec]
            simp only [Prod.mk.injEq, List.append_assoc]
            exact ⟨trivial, by omega⟩
          · exfalso
            have hlen' : u'.length < ps.length := Nat.lt_of_not_le hlen
            cases u' with
            | nil => exact absurd (Or.inl hm.1) (hlast c rfl)
            | cons d u'' =>
              obtain ⟨x, hx⟩ := lastCh_some d u''
              have hxmem : x ∈ d :: u'' := lastCh_mem _ x hx
              have hxps : x ∈ ps := begins_mem_of_short ps (d :: u'') v hm.2 hlen' x hxmem
              have hlx : lastCh (c :: d :: u'') = some x := by
                rw [lastCh_cons_cons]; exact hx
              exact hlast x hlx (Or.inr hxps)
        · have hm' : ¬(c = p ∧ begins ps u' = true) := by
            intro h
            exact hm ⟨h.1, begins_append ps u' v h.2⟩
          have hrec := ih u' v (Nat.le_of_succ_le_succ hu) 0 (Nat.zero_le _) hlast'
          rw [scanGo_nomatch p ps rep c (u' ++ v) hm, scanGo_nomatch p ps rep c u' hm', hrec]
          simp

/-- The mirrored split lemma: no match crosses a split point whose right
side begins with a character that is not in the pattern. -/
theorem scanGo_append_head (p : Char) (ps rep : List Char) :
    ∀ (n : Nat) (u v : List Char), u.length ≤ n → ∀ (k : Nat), k ≤ u.length →
    (∀ x, v.head? = some x → ¬(x = p ∨ x ∈ ps)) →
    scanGo p ps rep k (u ++ v) =
      ((scanGo p ps rep k u).1 ++ (scanGo p ps rep 0 v).1,
       (scanGo p ps rep k u).2 + (scanGo p ps rep 0 v).2) := by
  intro n
  induction n with
  | zero =>
    intro u v hu k hk _
    have hu0 : u = [] := List.length_eq_zero.mp (Nat.le_antisymm hu (Nat.zero_le _))
    subst hu0
    have hk0 : k = 0 := Nat.le_antisymm hk (Nat.zero_le _)
    subst hk0
    simp [scanGo_nil]
  | succ n ih =>
    intro u v hu k hk hhead
    cases u with
    | nil =>
      have hk0 : k = 0 := Nat.le_antisymm hk (Nat.zero_le _)
      subst hk0
      simp [scanGo_nil]
    | cons c u' =>
      cases k with
      | succ j =>
        have hj : j ≤ u'.length := Nat.le_of_succ_le_succ hk
        have hu' : u'.length ≤ n := Nat.le_of_succ_le_succ hu
        rw [List.cons_append, scanGo_succ, scanGo_succ]
        exact ih u' v hu' j hj hhead
      | zero =>
        rw [List.cons_append]
        by_cases hm : (c = p ∧ begins ps (u' ++ v) = true)
        · by_cases hlen : ps.length ≤ u'.length
          · have hbu' : begins ps u' = true := begins_of_begins_append ps u' v hm.2 hlen
            have hm' : c = p ∧ begins ps u' = true := ⟨hm.1, hbu'⟩
            have hrec := ih u' v (Nat.le_of_succ_le_succ hu) ps.length hlen hhead
            rw [scanGo_match p ps rep c (u' ++ v) hm, scanGo_match p ps rep c u' hm', hrec]
            simp only [Prod.mk.injEq, List.append_assoc]
            exact ⟨trivial, by omega⟩
          · exfalso
            have hlen' : u'.length < ps.length := Nat.lt_of_not_le hlen
            cases v with
            | nil =>
              have := begins_length ps (u' ++ []) (by simpa using hm.2)
              simp at this
              omega
            | cons x v' =>
              have hxps : x ∈ ps := begins_head_mem_of_short ps u' x v' hm.2 hlen'
              exact hhead x rfl (Or.inr hxps)
        · have hm' : ¬(c = p ∧ begins ps u' = true) := by
            intro h
            exact hm ⟨h.1, begins_append ps u' v h.2⟩
          have hrec := ih u' v (Nat.le_of_succ_le_succ hu) 0 (Nat.zero_le _) hhead
          rw [scanGo_nomatch p ps rep c (u' ++ v) hm, scanGo_nomatch p ps rep c u' hm', hrec]
          simp

theorem countOcc_append_lastCh (pat u v : List Char)
    (h : ∀ x, lastCh u = some x → x ∉ pat) :
    countOcc pat (u ++ v) = countOcc pat u + countOcc pat v := by
  cases pat with
  | nil => simp [countOcc]
  | cons p ps =>
    have h' : ∀ x, lastCh u = some x → ¬(x = p ∨ x ∈ ps) := by
      intro x hx hor
      exact h x hx (by
        rcases hor with h1 | h2
        · simp [h1]
        · exact List.mem_cons_of_mem p h2)
    simp only [countOcc]
    rw [scanGo_append_last p ps [] u.length u v (Nat.le_refl _) 0 (Nat.zero_le _) h']

theorem countOcc_append_headCh (pat u v : List Char)
    (h : ∀ x, v.head? = some x → x ∉ pat) :
    countOcc pat (u ++ v) = countOcc pat u + countOcc pat v := by
  cases pat with
  | nil => simp [countOcc]
  | cons p ps =>
    have h' : ∀ x, v.head? = some x → ¬(x = p ∨ x ∈ ps) := by
      intro x hx hor
      exact h x hx (by
        rcases hor with h1 | h2
        · simp [h1]
        · exact List.mem_cons_of_mem p h2)
    simp only [countOcc]
    rw [scanGo_append_head p ps [] u.length u v (Nat.le_refl _) 0 (Nat.zero_le _) h']

theorem rustReplace_append_lastCh (pat rep u v : List Char)
    (h : ∀ x, lastCh u = some x → x ∉ pat) :
    rustReplace pat rep (u ++ v) = rustReplace pat rep u ++ rustReplace pat rep v := by
  cases pat with
  | nil => simp [rustReplace]
  | cons p ps =>
    have h' : ∀ x, lastCh u = some x → ¬(x = p ∨ x ∈ ps) := by
      intro x hx hor
      exact h x hx (by
        rcases hor with h1 | h2
        · simp [h1]
        · exact List.mem_cons_of_mem p h2)
    simp only [rustReplace]
    rw [scanGo_append_last p ps rep u.length u v (Nat.le_refl _) 0 (Nat.zero_le _) h']

theorem rustReplace_append_headCh (pat rep u v : List Char)
    (h : ∀ x, v.head? = some x → x ∉ pat) :
    rustReplace pat rep (u ++ v) = rustReplace pat rep u ++ rustReplace pat rep v := by
  cases pat with
  | nil => simp [rustReplace]
  | cons p ps =>
    have h' : ∀ x, v.head? = some x → ¬(x = p ∨ x ∈ ps) := by
      intro x hx hor
      exact h x hx (by
        rcases hor with h1 | h2
        · simp [h1]
        · exact List.mem_cons_of_mem p h2)
    simp only [rustReplace]
    rw [scanGo_append_head p ps rep u.length u v (Nat.le_refl _) 0 (Nat.zero_le _) h']

/-- Text containing no occurrence of the pattern is left unchanged by the
replacement scan. -/
theorem rustReplace_of_countOcc_zero (pat rep u : List Char)
    (h : countOcc pat u = 0) : rustReplace pat rep u = u := by
  cases pat with
  | nil => simp [rustReplace]
  | cons p ps =>
    simp only [countOcc] at h
    simp only [rustReplace]
    exact scanGo_count_zero p ps rep u (by rw [← scanGo_snd_irrel p ps [] rep u 0]; exact h)

/-! ## Source constants (src/main.rs, src/timeit.rs)

Template texts are embedded byte-for-byte; braces are written `\x7b`/`\x7d`
and the apostrophe `\x27` purely as source-file escapes. -/

def BASE : List Char := "timeit".data

def BASE_DIR : List Char := "rust-timeit".data

def CYCLES_DEP : List Char := "criterion-cycles-per-byte = \"0.1.2\"".data

def PERF_DEP : List Char := "criterion-linux-perf = \"0.1\"".data

def CYCLES_USE : List Char := "criterion_cycles_per_byte::CyclesPerByte".data

def PERF_USE : List Char := "criterion_linux_perf::\x7bPerfMeasurement, PerfMode\x7d".data

/-- The benchmark source template src/timeit.rs (the file ends without a
trailing newline). -/
def TIMEIT_RS : List Char :=
  "#![allow(unused_imports)]\n#![allow(redundant_semicolons)]\n\nuse criterion::\x7b\n    black_box, criterion_group, criterion_main,\n    measurement::\x7bMeasurement, WallTime\x7d,\n    Criterion,\n\x7d;\n\n/*USES*/\n\n/*INCLUDES*/\n\nfn timeit<T: \x27static + Measurement>(_crit: &mut Criterion<T>) \x7b\n   \x20/*SETUP*/\n\n   \x20/*EXPRESSIONS*/\n\x7d\n\ncriterion_group!(\n    name = benches;\n    config = Criterion::default().with_measurement(/*TIMER*/);\n    targets = timeit\n);\ncriterion_main!(benches);".data

/-- Modelled from the spec: the manifest template src/Cargo.toml.tmpl is
referenced by the source but is not under src/.  Per the spec it is an
immutable text with a dependency-block marker (replaced by the dependency
lines) and a project-name marker (replaced by the fixed project
identifier). -/
def CARGO_TOML : List Char :=
  "[package]\nname = \"@BASE@\"\nversion = \"0.0.0\"\nedition = \"2018\"\n\n[dependencies]\ncriterion = \"0.3\"\n@DEPENDENCIES@\n\n[[bench]]\nname = \"@BASE@\"\nharness = false\n".data

/-- Modelled from the spec: the snippet template src/expression.rs is
referenced by the source but is not under src/.  Per the spec it is a
sub-template used once per snippet, with a marker for the optional
black-box wrapper and a marker for the literal expression text; joining the
expanded snippets with the newline separator used by `Args::expressions`
yields blank-line separation, so the template ends with a newline. -/
def TIMEIT_EXPRESSION : List Char :=
  "    _crit.bench_function(\"/*EXPRESSION*/\", |b| b.iter(||\x20/*BLACK_BOX*/(/*EXPRESSION*/)));\n".data

/-! ## Backend modes (the perf_mode! macro expansion) -/

inductive PerfMode where
  | Cycles
  | Instructions
  | Branches
  | BranchMisses
  | CacheRefs
  | CacheMisses
  | BusCycles
  | RefCycles
deriving DecidableEq

/-- `PerfMode::as_perf_mode`, which is `stringify!` of the variant name. -/
def PerfMode.as_perf_mode : PerfMode → List Char
  | .Cycles => "Cycles".data
  | .Instructions => "Instructions".data
  | .Branches => "Branches".data
  | .BranchMisses => "BranchMisses".data
  | .CacheRefs => "CacheRefs".data
  | .CacheMisses => "CacheMisses".data
  | .BusCycles => "BusCycles".data
  | .RefCycles => "RefCycles".data

/-- `PerfMode::all_modes`: the command-line words of the closed mode
enumeration, in declaration order. -/
def PerfMode.all_modes : List (List Char) :=
  ["cycles".data, "instructions".data, "branches".data, "branch-misses".data,
   "cache-refs".data, "cache-misses".data, "bus-cycles".data, "ref-cycles".data]

/-- Result of `PerfMode::from_str`: the reserved word "help" prints the
mode list and exits the process, a known word parses, anything else is a
parse error reported by the argument parser. -/
inductive PerfParse where
  | helpExit
  | okMode (m : PerfMode)
  | errMode
deriving DecidableEq

/-- Model of `impl FromStr for PerfMode`. -/
def PerfMode.fromStr (s : List Char) : PerfParse :=
  if s = "help".data then .helpExit
  else if s = "cycles".data then .okMode .Cycles
  else if s = "instructions".data then .okMode .Instructions
  else if s = "branches".data then .okMode .Branches
  else if s = "branch-misses".data then .okMode .BranchMisses
  else if s = "cache-refs".data then .okMode .CacheRefs
  else if s = "cache-misses".data then .okMode .CacheMisses
  else if s = "bus-cycles".data then .okMode .BusCycles
  else if s = "ref-cycles".data then .okMode .RefCycles
  else .errMode

/-! ## The option model (struct Args) -/

/-- The parsed command-line options (struct Args).  The source field
`include` is a Lean keyword, so it is named `include_files` here.  The
`perf` option exists on the Linux build, which is the configuration
modelled (all cfg(target_os = "linux") items are present). -/
structure Args where
  setup : Option (List Char)
  dependency : List (List Char)
  uses : List (List Char)
  include_files : List (List Char)
  cycles : Bool
  perf : Option PerfMode
  black_box : Bool
  fresh : Bool
  cleanup : Bool
  verbose : Bool
  expression : List (List Char)
deriving DecidableEq

/-- `Args::dependencies`: user dependency lines, then the cycles dependency
if selected, then the perf dependency if selected, joined by newlines. -/
def Args.dependenciesText (a : Args) : List Char :=
  joinSep "\n".data
    (a.dependency ++ (if a.cycles then [CYCLES_DEP] else [])
      ++ (if a.perf.isSome then [PERF_DEP] else []))

/-- `Args::uses`: each import becomes a full `use …;` line; the backend
imports are appended after the user imports. -/
def Args.usesText (a : Args) : List Char :=
  joinSep []
    ((a.uses ++ (if a.cycles then [CYCLES_USE] else [])
      ++ (if a.perf.isSome then [PERF_USE] else [])).map
      (fun imp => "use ".data ++ imp ++ ";\n".data))

/-- `Args::setup`: the setup text followed by a statement terminator, or
empty text. -/
def Args.setupText (a : Args) : List Char :=
  match a.setup with
  | some s => s ++ ";".data
  | none => []

/-- The per-expression closure of `Args::expressions`: instantiate the
snippet template, black-box marker first (with the wrapper token when the
flag is set, empty text otherwise), then the expression marker. -/
def expandSnippet (bb : Bool) (e : List Char) : List Char :=
  rustReplace "/*EXPRESSION*/".data e
    (rustReplace "/*BLACK_BOX*/".data
      (if bb then "black_box".data else []) TIMEIT_EXPRESSION)

/-- `Args::expressions`: each expression instantiates the snippet template,
and the snippets are joined with "\n". -/
def Args.expressionsText (a : Args) : List Char :=
  joinSep "\n".data (a.expression.map (expandSnippet a.black_box))

/-- `Args::timer`: perf wins if selected, then cycles, and the wall clock is
the default. -/
def Args.timerText (a : Args) : List Char :=
  match a.perf with
  | some m => "PerfMeasurement::new(PerfMode::".data ++ m.as_perf_mode ++ ")".data
  | none => if a.cycles then "CyclesPerByte".data else "WallTime".data

/-! ## Artifact generation (fn create) -/

/-- The substitution loop of `fn create`: the template text is rewritten by
one full-text replace per (marker, value) pair, sequentially in list
order. -/
def createSubst (template : List Char) (subst : List (List Char × List Char)) : List Char :=
  subst.foldl (fun data kv => rustReplace kv.1 kv.2 data) template

/-- The manifest text written to Cargo.toml. -/
def genManifest (a : Args) : List Char :=
  createSubst CARGO_TOML
    [("@DEPENDENCIES@".data, a.dependenciesText), ("@BASE@".data, BASE)]

/-- The benchmark source text written to benches/timeit.rs; `inc` is the
pre-loaded include text. -/
def genBench (a : Args) (inc : List Char) : List Char :=
  createSubst TIMEIT_RS
    [("/*USES*/".data, a.usesText),
     ("/*INCLUDES*/".data, inc),
     ("/*SETUP*/".data, a.setupText),
     ("/*EXPRESSIONS*/".data, a.expressionsText),
     ("/*TIMER*/".data, a.timerText)]

/-- The external runner's argument vector: fixed, except that `--verbose` is
appended (after the `--` separator) in verbose mode. -/
def cmdline (verbose : Bool) : List (List Char) :=
  let base := ["bench".data, "--bench".data, "timeit".data, "--".data, "--noplot".data]
  if verbose then base ++ ["--verbose".data] else base

/-! ## The filesystem/process world and the run of fn main -/

/-- A Rust `std::io::Error` value: an error kind plus the OS message.  Note
that `File::open(path)` returns the raw OS error; the error value carries no
file path (Rust io errors do not record the path that produced them). -/
structure IOErr where
  kind : List Char
  msg : List Char
deriving DecidableEq

/-- The error produced by opening a file that does not exist: the raw OS
"No such file or directory" error, without the offending path. -/
def openErr : IOErr :=
  { kind := "NotFound".data, msg := "No such file or directory".data }

/-- A generic filesystem-operation failure used when a directory or file
operation is made to fail by the world oracle. -/
def fsError : IOErr :=
  { kind := "Other".data, msg := "filesystem operation failed".data }

/-- Success/failure oracle for each fallible filesystem or process step of
`fn main`, in program order.  `freshRemoveOk` already folds in the
`remove_dir_all` helper treatment of NotFound as success. -/
structure FsOks where
  freshRemoveOk : Bool
  createBaseOk : Bool
  chdirOk : Bool
  createBenchesOk : Bool
  writeCargoOk : Bool
  writeBenchOk : Bool
  spawnOk : Bool
  cleanupRemoveOk : Bool
deriving DecidableEq

/-- The ambient world of one invocation.  `files` maps readable paths to
contents; `childStatus` is the exit status the spawned runner would return;
`timeNow`, `envVars` and `randomSeed` model ambient environment data that
the program could in principle read — the determinism claim is that the
generated artifacts do not depend on them. -/
structure World where
  files : List (List Char × List Char)
  cacheRoot : List Char
  oks : FsOks
  childStatus : Nat
  timeNow : Nat
  envVars : List (List Char × List Char)
  randomSeed : Nat
deriving DecidableEq

/-- Observable side effects of a run, in order.  `create`'s
write-to-temporary-then-rename is collapsed into one atomic `writeFile`
event (no claim concerns the temporary file). -/
inductive Eff where
  | removeDirAll (path : List Char)
  | createDirAll (path : List Char)
  | setCurrentDir (path : List Char)
  | writeFile (path contents : List Char)
  | runCargo (prog : List Char) (argv : List (List Char))
  | eprint (line : List Char)
deriving DecidableEq

/-- How the process terminates: `ok` is exit status 0 (main returned
`Ok(())`), `ioError` is main returning `Err(e)` (exit status 1), and
`usageExit c` is an explicit `process::exit(c)`. -/
inductive Outcome where
  | ok
  | ioError (e : IOErr)
  | usageExit (code : Nat)
deriving DecidableEq

/-- The process exit status an `Outcome` produces. -/
def exitCode : Outcome → Nat
  | .ok => 0
  | .ioError _ => 1
  | .usageExit c => c

/-- Events that create, delete or modify the cache directory or files
within it (`setCurrentDir`, process spawning and terminal output are not
mutations). -/
def Eff.isDirMutation : Eff → Bool
  | .removeDirAll _ => true
  | .createDirAll _ => true
  | .writeFile _ _ => true
  | _ => false

/-- The cache-directory mutations of a trace. -/
def dirMut (t : List Eff) : List Eff := t.filter Eff.isDirMutation

/-- The (path, contents) pairs written by a trace. -/
def writesOf (t : List Eff) : List (List Char × List Char) :=
  t.filterMap (fun e =>
    match e with
    | .writeFile p c => some (p, c)
    | _ => none)

/-- Association-list file lookup (the readable filesystem). -/
def lookupFile (files : List (List Char × List Char)) (name : List Char) : Option (List Char) :=
  match files with
  | [] => none
  | (n, c) :: rest => if n = name then some c else lookupFile rest name

/-- The per-file reads of `Args::includes`, short-circuiting at the first
failure exactly like `collect::<Result<Vec<_>, _>>()`. -/
def readIncludesAux (files : List (List Char × List Char)) :
    List (List Char) → Except IOErr (List (List Char))
  | [] => .ok []
  | name :: rest =>
    match lookupFile files name with
    | none => .error openErr
    | some c =>
      match readIncludesAux files rest with
      | .error e => .error e
      | .ok cs => .ok (c :: cs)

/-- `Args::includes`: read every include file eagerly and join the contents
with a newline. -/
def includesResult (names : List (List Char)) (files : List (List Char × List Char)) :
    Except IOErr (List Char) :=
  match readIncludesAux files names with
  | .error e => .error e
  | .ok cs => .ok (joinSep "\n".data cs)

/-- The run of `fn main` after argument parsing: every fallible step either
extends the effect trace or stops the run with the step's error, in source
order.  The spawned child's exit status (`w.childStatus`) is read and then
dropped by the source (`.status()?` keeps only the spawn error), which is
why it does not influence the outcome below. -/
def mainModel (args : Args) (w : World) : List Eff × Outcome :=
  if args.expression = [] then ([], .usageExit 1)
  else if args.cycles = true ∧ args.perf.isSome = true then ([], .usageExit 1)
  else
    match includesResult args.include_files w.files with
    | .error e => ([], .ioError e)
    | .ok inc =>
      let base := w.cacheRoot ++ "/".data ++ BASE_DIR
      if args.fresh = true ∧ w.oks.freshRemoveOk = false then ([], .ioError fsError)
      else
        let t1 : List Eff := if args.fresh then [.removeDirAll base] else []
        if w.oks.createBaseOk = false then (t1, .ioError fsError)
        else
          let t2 := t1 ++ [.createDirAll base]
          if w.oks.chdirOk = false then (t2, .ioError fsError)
          else
            let t3 := t2 ++ [.setCurrentDir base]
            if w.oks.createBenchesOk = false then (t3, .ioError fsError)
            else
              let t4 := t3 ++ [.createDirAll "benches".data]
              if w.oks.writeCargoOk = false then (t4, .ioError fsError)
              else
                let t5 := t4 ++ [.writeFile "Cargo.toml".data (genManifest args)]
                if w.oks.writeBenchOk = false then (t5, .ioError fsError)
                else
                  let t6 := t5 ++ [.writeFile "benches/timeit.rs".data (genBench args inc)]
                  let t7 := t6 ++ [.removeDirAll "target/criterion".data]
                  if w.oks.spawnOk = false then (t7, .ioError fsError)
                  else
                    let t8 := t7 ++ [.runCargo "cargo".data (cmdline args.verbose)]
                    if args.cleanup = true ∧ w.oks.cleanupRemoveOk = false then (t8, .ioError fsError)
                    else
                      let t9 := t8 ++ (if args.cleanup then [.removeDirAll base] else [])
                      (t9, .ok)

/-- One whole invocation including the argument-parsing stage: `rawPerf` is
the raw text given to `--perf` (if any); `PerfMode::from_str` runs inside
the parser, before anything in `fn main`.  The "help" word prints the mode
list and exits 1; an unparsable word makes the parser report the error and
exit 1. -/
def runTool (rawPerf : Option (List Char)) (args : Args) (w : World) : List Eff × Outcome :=
  match rawPerf with
  | none => mainModel { args with perf := none } w
  | some s =>
    match PerfMode.fromStr s with
    | .helpExit =>
      (Eff.eprint "Valid values for --perf".data :: PerfMode.all_modes.map Eff.eprint,
       .usageExit 1)
    | .errMode => ([Eff.eprint "Unknown perf mode".data], .usageExit 1)
    | .okMode m => mainModel { args with perf := some m } w

/-! ## Closed forms of the snippet expansion -/

/-- The snippet-template text before the first expression marker. -/
def snippetPre : List Char := "    _crit.bench_function(\"".data

/-- The snippet-template text between the two expression markers, with the
black-box marker already resolved for the given flag. -/
def snippetMid (bb : Bool) : List Char :=
  "\", |b| b.iter(||\x20".data ++ (if bb then "black_box".data else []) ++ "(".data

/-- The snippet-template text after the second expression marker, without
the trailing newline. -/
def snippetClose : List Char := ")));".data

/-- One fully expanded snippet, without its trailing newline. -/
def snippetCore (bb : Bool) (e : List Char) : List Char :=
  snippetPre ++ (e ++ (snippetMid bb ++ (e ++ snippetClose)))

theorem expandSnippet_closed (bb : Bool) (e : List Char) :
    expandSnippet bb e =
      snippetPre ++ (e ++ (snippetMid bb ++ (e ++ (snippetClose ++ "\n".data)))) := by
  cases bb <;> rfl

theorem expandSnippet_core (bb : Bool) (e : List Char) :
    expandSnippet bb e = snippetCore bb e ++ "\n".data := by
  rw [expandSnippet_closed]
  simp [snippetCore, snippetClose, List.append_assoc]

/-! ## Shared concrete fixtures -/

/-- An option model with no flags and no inputs. -/
def argsBase : Args :=
  { setup := none, dependency := [], uses := [], include_files := [],
    cycles := false, perf := none, black_box := false, fresh := false,
    cleanup := false, verbose := false, expression := [] }

/-- All filesystem and process steps succeed. -/
def oksAll : FsOks :=
  { freshRemoveOk := true, createBaseOk := true, chdirOk := true,
    createBenchesOk := true, writeCargoOk := true, writeBenchOk := true,
    spawnOk := true, cleanupRemoveOk := true }

/-- A benign world: no readable files, everything succeeds, child exits 0. -/
def worldBase : World :=
  { files := [], cacheRoot := "/home/user/.cache".data, oks := oksAll,
    childStatus := 0, timeNow := 0, envVars := [], randomSeed := 0 }

/-- The option model exercising sequential substitution: the setup text is
exactly the expression-block marker. -/
def c4Args (bb : Bool) (es : List (List Char)) : Args :=
  { argsBase with setup := some "/*EXPRESSIONS*/".data, black_box := bb, expression := es }

/-- The generated benchmark source of `c4Args`, up to the first spot where
the expression block lands (the setup slot). -/
def c4Pre : List Char :=
  "#![allow(unused_imports)]\n#![allow(redundant_semicolons)]\n\nuse criterion::\x7b\n    black_box, criterion_group, criterion_main,\n    measurement::\x7bMeasurement, WallTime\x7d,\n    Criterion,\n\x7d;\n\n\n\n\n\nfn timeit<T: \x27static + Measurement>(_crit: &mut Criterion<T>) \x7b\n    ".data

/-- The text between the two spots where the expression block lands. -/
def c4Mid : List Char := ";\n\n    ".data

/-- The text after the second expression-block spot, with the timer marker
still present. -/
def c4TailTmpl : List Char :=
  "\n\x7d\n\ncriterion_group!(\n    name = benches;\n    config = Criterion::default().with_measurement(/*TIMER*/);\n    targets = timeit\n);\ncriterion_main!(benches);".data

/-- The same tail after the timer substitution. -/
def c4Tail : List Char :=
  "\n\x7d\n\ncriterion_group!(\n    name = benches;\n    config = Criterion::default().with_measurement(WallTime);\n    targets = timeit\n);\ncriterion_main!(benches);".data

/-! ## Claims -/

/-- C1: the claim states that when the runner subprocess spawns but exits
with a non-zero status, the tool exits with that same status.  The source
(`process::Command::new("cargo").args(&cmdline).status()?`) keeps only the
spawn error and drops the returned `ExitStatus`, so with a child exit
status of 1 the run still ends in `Ok(())` and the tool exits 0: the
status is swallowed, contradicting the claim (and the spec's stated
error-handling design). -/
theorem c1_child_status_swallowed :
    ({ worldBase with childStatus := 1 } : World).childStatus = 1 ∧
    (mainModel { argsBase with expression := ["1 + 1".data] }
        { worldBase with childStatus := 1 }).2 = Outcome.ok ∧
    exitCode (mainModel { argsBase with expression := ["1 + 1".data] }
        { worldBase with childStatus := 1 }).2 = 0 :=
  ⟨rfl, rfl, rfl⟩

/-- C2 counterexample: with the cleanup flag set, an otherwise fully
successful run whose final cache-directory deletion fails ends in
`Err(fsError)` and exit status 1 — the cleanup failure does override the
run's success status, refuting the claim as stated. -/
theorem c2_counterexample :
    (mainModel { argsBase with expression := ["1 + 1".data], cleanup := true }
        { worldBase with oks := { oksAll with cleanupRemoveOk := false } }).2 =
      Outcome.ioError fsError ∧
    exitCode (mainModel { argsBase with expression := ["1 + 1".data], cleanup := true }
        { worldBase with oks := { oksAll with cleanupRemoveOk := false } }).2 = 1 :=
  ⟨rfl, rfl⟩

/-- C2 (amended): if the cleanup flag is set and every step up to cleanup
succeeded, a failure to delete the cache directory during cleanup makes the
run fail with that I/O error (exit status 1), like every other I/O failure
— cleanup deletion is not best-effort in the code (`fs::remove_dir_all(..)?`);
only the pre-run `target/criterion` clearing is best-effort. -/
theorem c2_cleanup_failure_fatal (args : Args) (w : World) (inc : List Char)
    (hcl : args.cleanup = true) (hok : w.oks.cleanupRemoveOk = false)
    (hexp : args.expression ≠ [])
    (hconf : ¬(args.cycles = true ∧ args.perf.isSome = true))
    (hinc : includesResult args.include_files w.files = .ok inc)
    (h1 : w.oks.freshRemoveOk = true) (h2 : w.oks.createBaseOk = true)
    (h3 : w.oks.chdirOk = true) (h4 : w.oks.createBenchesOk = true)
    (h5 : w.oks.writeCargoOk = true) (h6 : w.oks.writeBenchOk = true)
    (h7 : w.oks.spawnOk = true) :
    (mainModel args w).2 = Outcome.ioError fsError ∧
    exitCode (mainModel args w).2 = 1 := by
  have : (mainModel args w).2 = Outcome.ioError fsError := by
    simp [mainModel, hcl, hok, hexp, hconf, hinc, h1, h2, h3, h4, h5, h6, h7]
  exact ⟨this, by rw [this]; rfl⟩

/-- C2 witness: the amended theorem applied at a concrete run. -/
theorem c2_cleanup_failure_fatal_witness :
    (mainModel { argsBase with expression := ["1 + 1".data], cleanup := true }
        { worldBase with oks := { oksAll with cleanupRemoveOk := false } }).2 =
      Outcome.ioError fsError :=
  (c2_cleanup_failure_fatal
    { argsBase with expression := ["1 + 1".data], cleanup := true }
    { worldBase with oks := { oksAll with cleanupRemoveOk := false } }
    [] rfl rfl (by decide) (by decide) rfl rfl rfl rfl rfl rfl rfl rfl).1

theorem readIncludesAux_ok (files : List (List Char × List Char)) :
    ∀ (names : List (List Char)) (cs : List (List Char)),
    readIncludesAux files names = .ok cs →
    cs = names.map (fun n => (lookupFile files n).getD []) := by
  intro names
  induction names with
  | nil =>
    intro cs h
    simp [readIncludesAux] at h
    simp [h]
  | cons n rest ih =>
    intro cs h
    simp only [readIncludesAux] at h
    cases hl : lookupFile files n with
    | none => rw [hl] at h; exact absurd h (by simp)
    | some c =>
      rw [hl] at h
      cases ha : readIncludesAux files rest with
      | error e => rw [ha] at h; exact absurd h (by simp)
      | ok cs' =>
        rw [ha] at h
        simp only [Except.ok.injEq] at h
        simp [← h, hl, ih cs' ha]

/-- The include list and expression list of the failing-include run. -/
def c3xArgs : Args :=
  { argsBase with include_files := ["a.txt".data, "b.txt".data], expression := ["1 + 1".data] }

/-- A world in which "a.txt" is readable and "b.txt" is absent. -/
def c3xW : World :=
  { worldBase with files := [("a.txt".data, "fn a() \x7b\x7d".data)] }

/-- C3 counterexample: with includes ["a.txt", "b.txt"] where "b.txt" does
not exist, the run fails before touching any directory — but the `IOError`
it fails with is the raw OS error of `File::open`, which does not mention
"b.txt" anywhere (Rust io errors carry no path), refuting the
"identifies the offending path" part of the claim. -/
theorem c3_counterexample :
    mainModel c3xArgs c3xW = ([], Outcome.ioError openErr) ∧
    countOcc "b.txt".data openErr.msg = 0 ∧
    countOcc "b.txt".data openErr.kind = 0 :=
  ⟨rfl, rfl, rfl⟩

/-- C3 (amended): if any include file cannot be read, the tool fails with
the underlying IOError of that read (an error value that does not itself
name the offending path) and performs no effect at all — in particular no
cache-directory creation, deletion or modification — because all include
files are read eagerly before any directory operation; on success the
contents are concatenated in the order given, separated by a newline. -/
theorem c3_includes_eager_and_joined :
    (∀ (args : Args) (w : World) (e : IOErr),
      args.expression ≠ [] → ¬(args.cycles = true ∧ args.perf.isSome = true) →
      includesResult args.include_files w.files = .error e →
      mainModel args w = ([], Outcome.ioError e)) ∧
    (∀ (names : List (List Char)) (files : List (List Char × List Char)) (out : List Char),
      includesResult names files = .ok out →
      out = joinSep "\n".data (names.map (fun n => (lookupFile files n).getD []))) := by
  constructor
  · intro args w e hexp hconf hinc
    simp [mainModel, hexp, hconf, hinc]
  · intro names files out h
    simp only [includesResult] at h
    cases ha : readIncludesAux files names with
    | error e => rw [ha] at h; exact absurd h (by simp)
    | ok cs =>
      rw [ha] at h
      simp only [Except.ok.injEq] at h
      rw [← h, readIncludesAux_ok files names cs ha]

/-- C3 witness: the amended theorem applied at a concrete failing run and a
concrete successful two-file read. -/
theorem c3_includes_witness :
    mainModel c3xArgs c3xW = ([], Outcome.ioError openErr) ∧
    "AA\nBB".data =
      joinSep "\n".data
        (["a.txt".data, "b.txt".data].map
          (fun n => (lookupFile [("a.txt".data, "AA".data), ("b.txt".data, "BB".data)] n).getD [])) :=
  ⟨c3_includes_eager_and_joined.1 c3xArgs c3xW openErr (by decide) (by decide) rfl,
   c3_includes_eager_and_joined.2 ["a.txt".data, "b.txt".data]
      [("a.txt".data, "AA".data), ("b.txt".data, "BB".data)] "AA\nBB".data rfl⟩

/-- C4 counterexample: with setup text "/\x2aEXPRESSIONS\x2a/" (a marker
inside a substituted value) and expression list ["1"], the generated source
contains no expression-block marker at all and contains the expanded
snippet twice: the marker inside the substituted setup value was replaced
by the subsequent substitution step, refuting the claim that such a marker
is never replaced. -/
theorem c4_counterexample :
    countOcc "/*EXPRESSIONS*/".data (genBench (c4Args false ["1".data]) []) = 0 ∧
    countOcc (expandSnippet false "1".data) (genBench (c4Args false ["1".data]) []) = 2 :=
  ⟨rfl, rfl⟩

/-- C4 (amended): `create` applies its substitutions as sequential
full-text replacement passes in slot order.  Within one pass the
substituted value is never rescanned (non-recursive), but a marker of a
later pass occurring inside an earlier-substituted value IS replaced when
that later pass runs: with setup text equal to the expression-block marker,
the expression block lands both at the setup slot and at the expression
slot of the generated source. -/
theorem c4_sequential_substitution (bb : Bool) (es : List (List Char))
    (h : countOcc "/*TIMER*/".data ((c4Args bb es).expressionsText) = 0) :
    genBench (c4Args bb es) [] =
      c4Pre ++ ((c4Args bb es).expressionsText ++
        (c4Mid ++ ((c4Args bb es).expressionsText ++ c4Tail))) := by
  have h0 : genBench (c4Args bb es) [] =
      rustReplace "/*TIMER*/".data "WallTime".data
        (c4Pre ++ ((c4Args bb es).expressionsText ++
          (c4Mid ++ ((c4Args bb es).expressionsText ++ c4TailTmpl)))) := rfl
  rw [h0]
  have hpre : ∀ x, lastCh c4Pre = some x → x ∉ "/*TIMER*/".data := by
    intro x hx
    rw [show lastCh c4Pre = some ' ' from rfl] at hx
    have hxe : ' ' = x := Option.some.inj hx
    subst hxe
    decide
  have hmid : ∀ x, lastCh c4Mid = some x → x ∉ "/*TIMER*/".data := by
    intro x hx
    rw [show lastCh c4Mid = some ' ' from rfl] at hx
    have hxe : ' ' = x := Option.some.inj hx
    subst hxe
    decide
  have hb : ∀ x, (c4Mid ++ ((c4Args bb es).expressionsText ++ c4TailTmpl)).head? = some x →
      x ∉ "/*TIMER*/".data := by
    intro x hx
    rw [show (c4Mid ++ ((c4Args bb es).expressionsText ++ c4TailTmpl)).head? = some ';'
      from rfl] at hx
    have hxe : ';' = x := Option.some.inj hx
    subst hxe
    decide
  have htail : ∀ x, c4TailTmpl.head? = some x → x ∉ "/*TIMER*/".data := by
    intro x hx
    rw [show c4TailTmpl.head? = some '\n' from rfl] at hx
    have hxe : '\n' = x := Option.some.inj hx
    subst hxe
    decide
  rw [rustReplace_append_lastCh "/*TIMER*/".data "WallTime".data c4Pre _ hpre,
      show rustReplace "/*TIMER*/".data "WallTime".data c4Pre = c4Pre from rfl,
      rustReplace_append_headCh "/*TIMER*/".data "WallTime".data
        ((c4Args bb es).expressionsText) _ hb,
      rustReplace_of_countOcc_zero "/*TIMER*/".data "WallTime".data _ h,
      rustReplace_append_lastCh "/*TIMER*/".data "WallTime".data c4Mid _ hmid,
      show rustReplace "/*TIMER*/".data "WallTime".data c4Mid = c4Mid from rfl,
      rustReplace_append_headCh "/*TIMER*/".data "WallTime".data
        ((c4Args bb es).expressionsText) c4TailTmpl htail,
      rustReplace_of_countOcc_zero "/*TIMER*/".data "WallTime".data _ h,
      show rustReplace "/*TIMER*/".data "WallTime".data c4TailTmpl = c4Tail from rfl]

/-- C4 witness: the amended theorem applied at a concrete input. -/
theorem c4_sequential_substitution_witness :
    countOcc "/*TIMER*/".data ((c4Args false ["1".data]).expressionsText) = 0 ∧
    genBench (c4Args false ["1".data]) [] =
      c4Pre ++ ((c4Args false ["1".data]).expressionsText ++
        (c4Mid ++ ((c4Args false ["1".data]).expressionsText ++ c4Tail))) :=
  ⟨rfl, c4_sequential_substitution false ["1".data] rfl⟩

/-- C5 counterexample: with the black-box flag false the generated
benchmark source still contains the wrapper token once — the template's
fixed `use criterion::\x7b black_box, … \x7d` import line — refuting
"no black-box wrapper token appears anywhere in the generated source". -/
theorem c5_counterexample :
    ({ argsBase with expression := ["1 + 1".data] } : Args).black_box = false ∧
    countOcc "black_box".data
      (genBench { argsBase with expression := ["1 + 1".data] } []) = 1 :=
  ⟨rfl, rfl⟩

/-- C5 (amended): in the expression block, the wrapper is controlled
exactly by the flag: provided the expression text itself contains no
occurrence of the wrapper token, an expanded snippet contains exactly one
occurrence when the flag is set and none when it is not (the fixed import
line of the source template always names black_box regardless). -/
theorem c5_black_box_once (bb : Bool) (e : List Char)
    (h : countOcc "black_box".data e = 0) :
    countOcc "black_box".data (expandSnippet bb e) = if bb then 1 else 0 := by
  rw [expandSnippet_closed]
  have hpre : ∀ x, lastCh snippetPre = some x → x ∉ "black_box".data := by
    intro x hx
    rw [show lastCh snippetPre = some '"' from rfl] at hx
    have hxe : '"' = x := Option.some.inj hx
    subst hxe
    decide
  have hv2 : ∀ x, (snippetClose ++ "\n".data).head? = some x → x ∉ "black_box".data := by
    intro x hx
    rw [show (snippetClose ++ "\n".data).head? = some ')' from rfl] at hx
    have hxe : ')' = x := Option.some.inj hx
    subst hxe
    decide
  cases bb with
  | false =>
    have hv1 : ∀ x, (snippetMid false ++ (e ++ (snippetClose ++ "\n".data))).head? = some x →
        x ∉ "black_box".data := by
      intro x hx
      rw [show (snippetMid false ++ (e ++ (snippetClose ++ "\n".data))).head? = some '"'
        from rfl] at hx
      have hxe : '"' = x := Option.some.inj hx
      subst hxe
      decide
    have hmid : ∀ x, lastCh (snippetMid false) = some x → x ∉ "black_box".data := by
      intro x hx
      rw [show lastCh (snippetMid false) = some '(' from rfl] at hx
      have hxe : '(' = x := Option.some.inj hx
      subst hxe
      decide
    rw [countOcc_append_lastCh "black_box".data snippetPre _ hpre,
        countOcc_append_headCh "black_box".data e _ hv1,
        countOcc_append_lastCh "black_box".data (snippetMid false) _ hmid,
        countOcc_append_headCh "black_box".data e _ hv2, h,
        show countOcc "black_box".data snippetPre = 0 from rfl,
        show countOcc "black_box".data (snippetMid false) = 0 from rfl,
        show countOcc "black_box".data (snippetClose ++ "\n".data) = 0 from rfl]
    decide
  | true =>
    have hv1 : ∀ x, (snippetMid true ++ (e ++ (snippetClose ++ "\n".data))).head? = some x →
        x ∉ "black_box".data := by
      intro x hx
      rw [show (snippetMid true ++ (e ++ (snippetClose ++ "\n".data))).head? = some '"'
        from rfl] at hx
      have hxe : '"' = x := Option.some.inj hx
      subst hxe
      decide
    have hmid : ∀ x, lastCh (snippetMid true) = some x → x ∉ "black_box".data := by
      intro x hx
      rw [show lastCh (snippetMid true) = some '(' from rfl] at hx
      have hxe : '(' = x := Option.some.inj hx
      subst hxe
      decide
    rw [countOcc_append_lastCh "black_box".data snippetPre _ hpre,
        countOcc_append_headCh "black_box".data e _ hv1,
        countOcc_append_lastCh "black_box".data (snippetMid true) _ hmid,
        countOcc_append_headCh "black_box".data e _ hv2, h,
        show countOcc "black_box".data snippetPre = 0 from rfl,
        show countOcc "black_box".data (snippetMid true) = 1 from rfl,
        show countOcc "black_box".data (snippetClose ++ "\n".data) = 0 from rfl]
    decide

/-- C5 witness: the amended theorem applied at "1 + 1" with the flag set,
and (independently computed hypothesis) at flag clear. -/
theorem c5_black_box_once_witness :
    countOcc "black_box".data "1 + 1".data = 0 ∧
    countOcc "black_box".data (expandSnippet true "1 + 1".data) = 1 ∧
    countOcc "black_box".data (expandSnippet false "1 + 1".data) = 0 :=
  ⟨rfl, c5_black_box_once true "1 + 1".data rfl, c5_black_box_once false "1 + 1".data rfl⟩

theorem joinSep_expand_core (bb : Bool) :
    ∀ (es : List (List Char)), es ≠ [] →
    joinSep "\n".data (es.map (expandSnippet bb)) =
      joinSep "\n\n".data (es.map (snippetCore bb)) ++ "\n".data := by
  intro es
  induction es with
  | nil => intro h; exact absurd rfl h
  | cons e rest ih =>
    intro _
    cases rest with
    | nil =>
      simp only [List.map_cons, List.map_nil, joinSep]
      exact expandSnippet_core bb e
    | cons e2 rest2 =>
      have ihh := ih (by simp)
      simp only [List.map_cons] at ihh ⊢
      rw [show joinSep "\n".data
            (expandSnippet bb e :: expandSnippet bb e2 :: rest2.map (expandSnippet bb)) =
          expandSnippet bb e ++ "\n".data ++
            joinSep "\n".data (expandSnippet bb e2 :: rest2.map (expandSnippet bb)) from rfl,
          show joinSep "\n\n".data
            (snippetCore bb e :: snippetCore bb e2 :: rest2.map (snippetCore bb)) =
          snippetCore bb e ++ "\n\n".data ++
            joinSep "\n\n".data (snippetCore bb e2 :: rest2.map (snippetCore bb)) from rfl,
          ihh, expandSnippet_core bb e]
      simp [List.append_assoc]

/-- C6: for every non-empty expression list, the expression block of the
generated source is exactly one expanded snippet per input expression, in
input order, consecutive snippets separated by a blank line: it equals the
per-expression snippet bodies joined by "\n\n", followed by the final
snippet's terminating newline. -/
theorem c6_expression_blocks (a : Args) (h : a.expression ≠ []) :
    a.expressionsText =
      joinSep "\n\n".data (a.expression.map (snippetCore a.black_box)) ++ "\n".data :=
  joinSep_expand_core a.black_box a.expression h

/-- The two-expression option model used as the C6 witness input. -/
def c6wArgs : Args := { argsBase with expression := ["1 + 1".data, "foo()".data] }

/-- C6 witness: the theorem applied at a concrete two-expression model. -/
theorem c6_expression_blocks_witness :
    c6wArgs.expressionsText =
      joinSep "\n\n".data (c6wArgs.expression.map (snippetCore c6wArgs.black_box)) ++ "\n".data :=
  c6_expression_blocks c6wArgs (by decide)

/-- C7: requesting both the cycle-count backend and a hardware-perf-counter
backend always ends the run with the usage exit (status 1) and an empty
trace — no cache-directory creation, deletion or modification happens
(whether or not the expression list was empty, the run stops at a usage
check before any directory step); and absent any backend selection the
timer expression is the wall clock. -/
theorem c7_backend_exclusivity :
    (∀ (args : Args) (w : World), args.cycles = true → args.perf.isSome = true →
      (mainModel args w).2 = Outcome.usageExit 1 ∧ dirMut (mainModel args w).1 = []) ∧
    (∀ a : Args, a.cycles = false → a.perf = none → a.timerText = "WallTime".data) := by
  constructor
  · intro args w hc hp
    by_cases he : args.expression = []
    · simp [mainModel, he, dirMut]
    · simp [mainModel, he, hc, hp, dirMut]
  · intro a hc hp
    simp [Args.timerText, hc, hp]

/-- The conflicting option model used as the C7 witness input. -/
def c7wArgs : Args :=
  { argsBase with cycles := true, perf := some PerfMode.Cycles, expression := ["1 + 1".data] }

/-- C7 witness: the theorem applied at a concrete conflicting invocation
and at the default backend selection. -/
theorem c7_backend_exclusivity_witness :
    (mainModel c7wArgs worldBase).2 = Outcome.usageExit 1 ∧
    dirMut (mainModel c7wArgs worldBase).1 = [] ∧
    argsBase.timerText = "WallTime".data :=
  ⟨(c7_backend_exclusivity.1 c7wArgs worldBase rfl rfl).1,
   (c7_backend_exclusivity.1 c7wArgs worldBase rfl rfl).2,
   c7_backend_exclusivity.2 argsBase rfl rfl⟩

/-- C8: selecting the perf pseudo-mode "help" makes the invocation print
the header line followed by every valid mode word, terminate with exit
status 1, and perform no cache-directory mutation; any other unknown mode
text makes the argument parser fail (usage error, exit status 1), likewise
before any directory operation. -/
theorem c8_perf_help_and_unknown :
    (∀ (args : Args) (w : World),
      runTool (some "help".data) args w =
        (Eff.eprint "Valid values for --perf".data :: PerfMode.all_modes.map Eff.eprint,
         Outcome.usageExit 1) ∧
      dirMut (runTool (some "help".data) args w).1 = []) ∧
    (∀ (args : Args) (w : World) (s : List Char),
      s ∉ PerfMode.all_modes → s ≠ "help".data →
      runTool (some s) args w = ([Eff.eprint "Unknown perf mode".data], Outcome.usageExit 1) ∧
      dirMut (runTool (some s) args w).1 = []) := by
  constructor
  · intro args w
    exact ⟨rfl, rfl⟩
  · intro args w s hs hh
    simp only [PerfMode.all_modes, List.mem_cons, List.not_mem_nil, or_false, not_or] at hs
    obtain ⟨h1, h2, h3, h4, h5, h6, h7, h8⟩ := hs
    have hfs : PerfMode.fromStr s = PerfParse.errMode := by
      simp [PerfMode.fromStr, hh, h1, h2, h3, h4, h5, h6, h7, h8]
    constructor
    · simp [runTool, hfs]
    · simp [runTool, hfs, dirMut, Eff.isDirMutation]

/-- C8 witness: the theorem applied at the reserved word and at a concrete
unknown mode word. -/
theorem c8_perf_help_and_unknown_witness :
    runTool (some "help".data) argsBase worldBase =
      (Eff.eprint "Valid values for --perf".data :: PerfMode.all_modes.map Eff.eprint,
       Outcome.usageExit 1) ∧
    runTool (some "bogus".data) argsBase worldBase =
      ([Eff.eprint "Unknown perf mode".data], Outcome.usageExit 1) :=
  ⟨(c8_perf_help_and_unknown.1 argsBase worldBase).1,
   (c8_perf_help_and_unknown.2 argsBase worldBase "bogus".data (by decide) (by decide)).1⟩

/-- C9: generating the artifacts from the same option model in two worlds
that agree on the readable files and on the success of the filesystem
steps produces identical written (path, contents) pairs, even when the
worlds differ arbitrarily in clock time, environment variables, random
seed, cache-root location and child exit status: no timestamp, random
identifier or environment-dependent text reaches the manifest or the
benchmark source. -/
theorem c9_deterministic_artifacts (args : Args) (w1 w2 : World)
    (hf : w1.files = w2.files) (ho : w1.oks = w2.oks) :
    writesOf (mainModel args w1).1 = writesOf (mainModel args w2).1 := by
  by_cases he : args.expression = []
  · simp [mainModel, he]
  by_cases hcp : args.cycles = true ∧ args.perf.isSome = true
  · simp [mainModel, he, hcp]
  cases hinc : includesResult args.include_files w1.files with
  | error e =>
    have hinc2 : includesResult args.include_files w2.files = .error e := hf ▸ hinc
    simp [mainModel, he, hcp, hinc, hinc2]
  | ok inc =>
    have hinc2 : includesResult args.include_files w2.files = .ok inc := hf ▸ hinc
    by_cases hfresh : args.fresh = true
    · by_cases hclean : args.cleanup = true
      · by_cases hfrk : w1.oks.freshRemoveOk = false
        · have hfrk2 : w2.oks.freshRemoveOk = false := ho ▸ hfrk
          simp [mainModel, he, hcp, hinc, hinc2, hfresh, hclean, hfrk, hfrk2, writesOf, List.filterMap_cons]
        · have hfrk2 : ¬(w2.oks.freshRemoveOk = false) := ho ▸ hfrk
          by_cases hcb : w1.oks.createBaseOk = false
          · have hcb2 : w2.oks.createBaseOk = false := ho ▸ hcb
            simp [mainModel, he, hcp, hinc, hinc2, hfresh, hclean, hfrk, hfrk2, hcb, hcb2, writesOf, List.filterMap_cons]
          · have hcb2 : ¬(w2.oks.createBaseOk = false) := ho ▸ hcb
            by_cases hcd : w1.oks.chdirOk = false
            · have hcd2 : w2.oks.chdirOk = false := ho ▸ hcd
              simp [mainModel, he, hcp, hinc, hinc2, hfresh, hclean, hfrk, hfrk2, hcb, hcb2, hcd, hcd2, writesOf, List.filterMap_cons]
            · have hcd2 : ¬(w2.oks.chdirOk = false) := ho ▸ hcd
              by_cases hbe : w1.oks.createBenchesOk = false
              · have hbe2 : w2.oks.createBenchesOk = false := ho ▸ hbe
                simp [mainModel, he, hcp, hinc, hinc2, hfresh, hclean, hfrk, hfrk2, hcb, hcb2, hcd, hcd2, hbe, hbe2, writesOf, List.filterMap_cons]
              · have hbe2 : ¬(w2.oks.createBenchesOk = false) := ho ▸ hbe
                by_cases hwc : w1.oks.writeCargoOk = false
                · have hwc2 : w2.oks.writeCargoOk = false := ho ▸ hwc
                  simp [mainModel, he, hcp, hinc, hinc2, hfresh, hclean, hfrk, hfrk2, hcb, hcb2, hcd, hcd2, hbe, hbe2, hwc, hwc2, writesOf, List.filterMap_cons]
                · have hwc2 : ¬(w2.oks.writeCargoOk = false) := ho ▸ hwc
                  by_cases hwb : w1.oks.writeBenchOk = false
                  · have hwb2 : w2.oks.writeBenchOk = false := ho ▸ hwb
                    simp [mainModel, he, hcp, hinc, hinc2, hfresh, hclean, hfrk, hfrk2, hcb, hcb2, hcd, hcd2, hbe, hbe2, hwc, hwc2, hwb, hwb2, writesOf, List.filterMap_cons]
                  · have hwb2 : ¬(w2.oks.writeBenchOk = false) := ho ▸ hwb
                    by_cases hsp : w1.oks.spawnOk = false
                    · have hsp2 : w2.oks.spawnOk = false := ho ▸ hsp
                      simp [mainModel, he, hcp, hinc, hinc2, hfresh, hclean, hfrk, hfrk2, hcb, hcb2, hcd, hcd2, hbe, hbe2, hwc, hwc2, hwb, hwb2, hsp, hsp2, writesOf, List.filterMap_cons]
                    · have hsp2 : ¬(w2.oks.spawnOk = false) := ho ▸ hsp
                      by_cases hclk : w1.oks.cleanupRemoveOk = false
                      · have hclk2 : w2.oks.cleanupRemoveOk = false := ho ▸ hclk
                        simp [mainModel, he, hcp, hinc, hinc2, hfresh, hclean, hfrk, hfrk2, hcb, hcb2, hcd, hcd2, hbe, hbe2, hwc, hwc2, hwb, hwb2, hsp, hsp2, hclk, hclk2, writesOf, List.filterMap_cons]
                      · have hclk2 : ¬(w2.oks.cleanupRemoveOk = false) := ho ▸ hclk
                        simp [mainModel, he, hcp, hinc, hinc2, hfresh, hclean, hfrk, hfrk2, hcb, hcb2, hcd, hcd2, hbe, hbe2, hwc, hwc2, hwb, hwb2, hsp, hsp2, hclk, hclk2, writesOf, List.filterMap_cons]
      · by_cases hfrk : w1.oks.freshRemoveOk = false
        · have hfrk2 : w2.oks.freshRemoveOk = false := ho ▸ hfrk
          simp [mainModel, he, hcp, hinc, hinc2, hfresh, hclean, hfrk, hfrk2, writesOf, List.filterMap_cons]
        · have hfrk2 : ¬(w2.oks.freshRemoveOk = false) := ho ▸ hfrk
          by_cases hcb : w1.oks.createBaseOk = false
          · have hcb2 : w2.oks.createBaseOk = false := ho ▸ hcb
            simp [mainModel, he, hcp, hinc, hinc2, hfresh, hclean, hfrk, hfrk2, hcb, hcb2, writesOf, List.filterMap_cons]
          · have hcb2 : ¬(w2.oks.createBaseOk = false) := ho ▸ hcb
            by_cases hcd : w1.oks.chdirOk = false
            · have hcd2 : w2.oks.chdirOk = false := ho ▸ hcd
              simp [mainModel, he, hcp, hinc, hinc2, hfresh, hclean, hfrk, hfrk2, hcb, hcb2, hcd, hcd2, writesOf, List.filterMap_cons]
            · have hcd2 : ¬(w2.oks.chdirOk = false) := ho ▸ hcd
              by_cases hbe : w1.oks.createBenchesOk = false
              · have hbe2 : w2.oks.createBenchesOk = false := ho ▸ hbe
                simp [mainModel, he, hcp, hinc, hinc2, hfresh, hclean, hfrk, hfrk2, hcb, hcb2, hcd, hcd2, hbe, hbe2, writesOf, List.filterMap_cons]
              · have hbe2 : ¬(w2.oks.createBenchesOk = false) := ho ▸ hbe
                by_cases hwc : w1.oks.writeCargoOk = false
                · have hwc2 : w2.oks.writeCargoOk = false := ho ▸ hwc
                  simp [mainModel, he, hcp, hinc, hinc2, hfresh, hclean, hfrk, hfrk2, hcb, hcb2, hcd, hcd2, hbe, hbe2, hwc, hwc2, writesOf, List.filterMap_cons]
                · have hwc2 : ¬(w2.oks.writeCargoOk = false) := ho ▸ hwc
                  by_cases hwb : w1.oks.writeBenchOk = false
                  · have hwb2 : w2.oks.writeBenchOk = false := ho ▸ hwb
                    simp [mainModel, he, hcp, hinc, hinc2, hfresh, hclean, hfrk, hfrk2, hcb, hcb2, hcd, hcd2, hbe, hbe2, hwc, hwc2, hwb, hwb2, writesOf, List.filterMap_cons]
                  · have hwb2 : ¬(w2.oks.writeBenchOk = false) := ho ▸ hwb
                    by_cases hsp : w1.oks.spawnOk = false
                    · have hsp2 : w2.oks.spawnOk = false := ho ▸ hsp
                      simp [mainModel, he, hcp, hinc, hinc2, hfresh, hclean, hfrk, hfrk2, hcb, hcb2, hcd, hcd2, hbe, hbe2, hwc, hwc2, hwb, hwb2, hsp, hsp2, writesOf, List.filterMap_cons]
                    · have hsp2 : ¬(w2.oks.spawnOk = false) := ho ▸ hsp
                      simp [mainModel, he, hcp, hinc, hinc2, hfresh, hclean, hfrk, hfrk2, hcb, hcb2, hcd, hcd2, hbe, hbe2, hwc, hwc2, hwb, hwb2, hsp, hsp2, writesOf, List.filterMap_cons]
    · by_cases hclean : args.cleanup = true
      · by_cases hcb : w1.oks.createBaseOk = false
        · have hcb2 : w2.oks.createBaseOk = false := ho ▸ hcb
          simp [mainModel, he, hcp, hinc, hinc2, hfresh, hclean, hcb, hcb2, writesOf, List.filterMap_cons]
        · have hcb2 : ¬(w2.oks.createBaseOk = false) := ho ▸ hcb
          by_cases hcd : w1.oks.chdirOk = false
          · have hcd2 : w2.oks.chdirOk = false := ho ▸ hcd
            simp [mainModel, he, hcp, hinc, hinc2, hfresh, hclean, hcb, hcb2, hcd, hcd2, writesOf, List.filterMap_cons]
          · have hcd2 : ¬(w2.oks.chdirOk = false) := ho ▸ hcd
            by_cases hbe : w1.oks.createBenchesOk = false
            · have hbe2 : w2.oks.createBenchesOk = false := ho ▸ hbe
              simp [mainModel, he, hcp, hinc, hinc2, hfresh, hclean, hcb, hcb2, hcd, hcd2, hbe, hbe2, writesOf, List.filterMap_cons]
            · have hbe2 : ¬(w2.oks.createBenchesOk = false) := ho ▸ hbe
              by_cases hwc : w1.oks.writeCargoOk = false
              · have hwc2 : w2.oks.writeCargoOk = false := ho ▸ hwc
                simp [mainModel, he, hcp, hinc, hinc2, hfresh, hclean, hcb, hcb2, hcd, hcd2, hbe, hbe2, hwc, hwc2, writesOf, List.filterMap_cons]
              · have hwc2 : ¬(w2.oks.writeCargoOk = false) := ho ▸ hwc
                by_cases hwb : w1.oks.writeBenchOk = false
                · have hwb2 : w2.oks.writeBenchOk = false := ho ▸ hwb
                  simp [mainModel, he, hcp, hinc, hinc2, hfresh, hclean, hcb, hcb2, hcd, hcd2, hbe, hbe2, hwc, hwc2, hwb, hwb2, writesOf, List.filterMap_cons]
                · have hwb2 : ¬(w2.oks.writeBenchOk = false) := ho ▸ hwb
                  by_cases hsp : w1.oks.spawnOk = false
                  · have hsp2 : w2.oks.spawnOk = false := ho ▸ hsp
                    simp [mainModel, he, hcp, hinc, hinc2, hfresh, hclean, hcb, hcb2, hcd, hcd2, hbe, hbe2, hwc, hwc2, hwb, hwb2, hsp, hsp2, writesOf, List.filterMap_cons]
                  · have hsp2 : ¬(w2.oks.spawnOk = false) := ho ▸ hsp
                    by_cases hclk : w1.oks.cleanupRemoveOk = false
                    · have hclk2 : w2.oks.cleanupRemoveOk = false := ho ▸ hclk
                      simp [mainModel, he, hcp, hinc, hinc2, hfresh, hclean, hcb, hcb2, hcd, hcd2, hbe, hbe2, hwc, hwc2, hwb, hwb2, hsp, hsp2, hclk, hclk2, writesOf, List.filterMap_cons]
                    · have hclk2 : ¬(w2.oks.cleanupRemoveOk = false) := ho ▸ hclk
                      simp [mainModel, he, hcp, hinc, hinc2, hfresh, hclean, hcb, hcb2, hcd, hcd2, hbe, hbe2, hwc, hwc2, hwb, hwb2, hsp, hsp2, hclk, hclk2, writesOf, List.filterMap_cons]
      · by_cases hcb : w1.oks.createBaseOk = false
        · have hcb2 : w2.oks.createBaseOk = false := ho ▸ hcb
          simp [mainModel, he, hcp, hinc, hinc2, hfresh, hclean, hcb, hcb2, writesOf, List.filterMap_cons]
        · have hcb2 : ¬(w2.oks.createBaseOk = false) := ho ▸ hcb
          by_cases hcd : w1.oks.chdirOk = false
          · have hcd2 : w2.oks.chdirOk = false := ho ▸ hcd
            simp [mainModel, he, hcp, hinc, hinc2, hfresh, hclean, hcb, hcb2, hcd, hcd2, writesOf, List.filterMap_cons]
          · have hcd2 : ¬(w2.oks.chdirOk = false) := ho ▸ hcd
            by_cases hbe : w1.oks.createBenchesOk = false
            · have hbe2 : w2.oks.createBenchesOk = false := ho ▸ hbe
              simp [mainModel, he, hcp, hinc, hinc2, hfresh, hclean, hcb, hcb2, hcd, hcd2, hbe, hbe2, writesOf, List.filterMap_cons]
            · have hbe2 : ¬(w2.oks.createBenchesOk = false) := ho ▸ hbe
              by_cases hwc : w1.oks.writeCargoOk = false
              · have hwc2 : w2.oks.writeCargoOk = false := ho ▸ hwc
                simp [mainModel, he, hcp, hinc, hinc2, hfresh, hclean, hcb, hcb2, hcd, hcd2, hbe, hbe2, hwc, hwc2, writesOf, List.filterMap_cons]
              · have hwc2 : ¬(w2.oks.writeCargoOk = false) := ho ▸ hwc
                by_cases hwb : w1.oks.writeBenchOk = false
                · have hwb2 : w2.oks.writeBenchOk = false := ho ▸ hwb
                  simp [mainModel, he, hcp, hinc, hinc2, hfresh, hclean, hcb, hcb2, hcd, hcd2, hbe, hbe2, hwc, hwc2, hwb, hwb2, writesOf, List.filterMap_cons]
                · have hwb2 : ¬(w2.oks.writeBenchOk = false) := ho ▸ hwb
                  by_cases hsp : w1.oks.spawnOk = false
                  · have hsp2 : w2.oks.spawnOk = false := ho ▸ hsp
                    simp [mainModel, he, hcp, hinc, hinc2, hfresh, hclean, hcb, hcb2, hcd, hcd2, hbe, hbe2, hwc, hwc2, hwb, hwb2, hsp, hsp2, writesOf, List.filterMap_cons]
                  · have hsp2 : ¬(w2.oks.spawnOk = false) := ho ▸ hsp
                    simp [mainModel, he, hcp, hinc, hinc2, hfresh, hclean, hcb, hcb2, hcd, hcd2, hbe, hbe2, hwc, hwc2, hwb, hwb2, hsp, hsp2, writesOf, List.filterMap_cons]

/-- A world differing from `worldBase` in clock, environment, random seed,
cache root and child status — but not in files or step outcomes. -/
def c9wOther : World :=
  { worldBase with timeNow := 987654321, envVars := [("HOME".data, "/tmp/elsewhere".data)], randomSeed := 42, cacheRoot := "/var/cache".data, childStatus := 7 }

/-- C9 witness: the theorem applied to two concretely different worlds. -/
theorem c9_deterministic_artifacts_witness :
    writesOf (mainModel { argsBase with expression := ["1 + 1".data] } worldBase).1 =
      writesOf (mainModel { argsBase with expression := ["1 + 1".data] } c9wOther).1 :=
  c9_deterministic_artifacts { argsBase with expression := ["1 + 1".data] }
    worldBase c9wOther rfl rfl

/-- C10: the external runner is always `cargo` with exactly the argument
vector `bench --bench timeit -- --noplot`, and in verbose mode the single
extra argument `--verbose` is appended at the end — after the `--`
separator, so it is delivered to the benchmark binary rather than to cargo
itself; every run that reaches the spawn step records exactly this
invocation. -/
theorem c10_runner_invocation :
    (∀ (args : Args) (w : World) (inc : List Char),
      args.expression ≠ [] → ¬(args.cycles = true ∧ args.perf.isSome = true) →
      includesResult args.include_files w.files = .ok inc →
      w.oks.freshRemoveOk = true → w.oks.createBaseOk = true → w.oks.chdirOk = true →
      w.oks.createBenchesOk = true → w.oks.writeCargoOk = true → w.oks.writeBenchOk = true →
      w.oks.spawnOk = true →
      Eff.runCargo "cargo".data (cmdline args.verbose) ∈ (mainModel args w).1) ∧
    cmdline false =
      ["bench".data, "--bench".data, "timeit".data] ++ "--".data :: ["--noplot".data] ∧
    cmdline true =
      ["bench".data, "--bench".data, "timeit".data] ++
        "--".data :: ["--noplot".data, "--verbose".data] := by
  refine ⟨?_, rfl, rfl⟩
  intro args w inc he hcp hinc h1 h2 h3 h4 h5 h6 h7
  by_cases hcl : args.cleanup = true ∧ w.oks.cleanupRemoveOk = false
  · simp [mainModel, he, hcp, hinc, h1, h2, h3, h4, h5, h6, h7, hcl]
  · simp [mainModel, he, hcp, hinc, h1, h2, h3, h4, h5, h6, h7, hcl]

/-- C10 witness: the membership part applied at a concrete run, plus the
two fixed command lines. -/
theorem c10_runner_invocation_witness :
    Eff.runCargo "cargo".data (cmdline false) ∈
      (mainModel { argsBase with expression := ["1 + 1".data] } worldBase).1 :=
  c10_runner_invocation.1 { argsBase with expression := ["1 + 1".data] } worldBase []
    (by decide) (by decide) rfl rfl rfl rfl rfl rfl rfl rfl
